import Mathlib

/- Verification development for the point72_2025 ridership / toll-zone codebase.

   Shallow embedding conventions:
   * pandas / numpy floats are modelled as exact rationals (ℚ);
   * NaN and non-numeric cells are modelled by the `Val.null` / `Option.none`
     constructors; `pd.to_numeric(errors="coerce")` maps unparseable cells to
     `Val.null` (NaN), and `.fillna(0)` maps that to 0;
   * Python dicts are modelled as association lists (`List (κ × ν)`) with
     `lookupD`; insertion order is preserved;
   * `np.random` draws are modelled as explicit oracle parameters, with range
     hypotheses mirroring the documented distributions;
   * Python `round(x, 2)` is modelled with Mathlib `round` (round-half-up);
     Python uses banker's rounding, and the two agree except at exact ties,
     which no theorem below depends on (only monotonicity-style facts are used);
   * Python string operations are modelled on `List Char`
     (ASCII lowercasing, whitespace splitting). -/

/-! ## Shared helpers -/

/-- Model of Python `round(x, 2)`: round to the nearest multiple of 1/100. -/
def round2 (q : ℚ) : ℚ := ((round (100 * q) : ℤ) : ℚ) / 100

/-- ASCII lowercasing of one character, modelling Python `str.lower` on the
ASCII range (all strings handled by this codebase are ASCII). -/
def lowerChar : Char → Char
  | 'A' => 'a' | 'B' => 'b' | 'C' => 'c' | 'D' => 'd' | 'E' => 'e' | 'F' => 'f'
  | 'G' => 'g' | 'H' => 'h' | 'I' => 'i' | 'J' => 'j' | 'K' => 'k' | 'L' => 'l'
  | 'M' => 'm' | 'N' => 'n' | 'O' => 'o' | 'P' => 'p' | 'Q' => 'q' | 'R' => 'r'
  | 'S' => 's' | 'T' => 't' | 'U' => 'u' | 'V' => 'v' | 'W' => 'w' | 'X' => 'x'
  | 'Y' => 'y' | 'Z' => 'z'
  | c => c

/-- Whitespace test used by Python `str.split()` / `str.strip()`. -/
def isSpace (c : Char) : Bool := c = ' ' || c = '\t' || c = '\n' || c = '\r'

/-- Accumulator-based worker for `pySplit`; `acc` holds the (reversed) current
word. Structural recursion keeps it kernel-computable. -/
def pySplitAux : List Char → List Char → List (List Char)
  | [], acc => if acc = [] then [] else [acc.reverse]
  | c :: cs, acc =>
      if isSpace c then
        if acc = [] then pySplitAux cs [] else acc.reverse :: pySplitAux cs []
      else pySplitAux cs (c :: acc)

/-- Model of Python `str.split()` (no argument): split on whitespace runs,
discarding empty chunks. -/
def pySplit (l : List Char) : List (List Char) := pySplitAux l []

/-- Model of Python `str.lstrip()`. -/
def lstripChars (l : List Char) : List Char := l.dropWhile isSpace

/-- Model of Python `str.rstrip()`. -/
def rstripChars (l : List Char) : List Char := (l.reverse.dropWhile isSpace).reverse

/-- Model of Python `str.strip()`. -/
def pyStrip (l : List Char) : List Char := rstripChars (lstripChars l)

/-- Whether `pat` occurs at the start of `l`. -/
def startsWithSeq : List Char → List Char → Bool
  | [], _ => true
  | _ :: _, [] => false
  | a :: as_, b :: bs => a = b && startsWithSeq as_ bs

/-- Model of the Python substring test `pat in s`. -/
def containsSeq (pat : List Char) : List Char → Bool
  | [] => startsWithSeq pat []
  | c :: cs => startsWithSeq pat (c :: cs) || containsSeq pat cs

/-- Association-list lookup by decidable equality, modelling Python dict
indexing / `.get` (`none` = key absent). -/
def lookupD {κ ν : Type} [DecidableEq κ] : List (κ × ν) → κ → Option ν
  | [], _ => none
  | (k', v) :: rest, k => if k' = k then some v else lookupD rest k

/-- First-occurrence deduplication worker (`seen` is the set already kept). -/
def dedupKeep {α : Type} [DecidableEq α] : List α → List α → List α
  | [], _ => []
  | a :: l, seen => if a ∈ seen then dedupKeep l seen else a :: dedupKeep l (a :: seen)

/-- Model of pandas `.unique()`: distinct values in first-occurrence order. -/
def uniqueList {α : Type} [DecidableEq α] (l : List α) : List α := dedupKeep l []

/-- Ordered insertion, the worker of `sortAsc`. -/
def insertAsc {α : Type} [LinearOrder α] (a : α) : List α → List α
  | [] => [a]
  | b :: l => if a ≤ b then a :: b :: l else b :: insertAsc a l

/-- Insertion sort into ascending order (models the sorted key order that
pandas `groupby` / `pivot` produce). -/
def sortAsc {α : Type} [LinearOrder α] (l : List α) : List α := l.foldr insertAsc []

/-- Add `v` to the entry of key `k` in an association list of running sums,
appending a new entry if the key is absent. -/
def bump {κ : Type} [DecidableEq κ] : List (κ × ℚ) → κ → ℚ → List (κ × ℚ)
  | [], k, v => [(k, v)]
  | (k', v') :: rest, k, v =>
      if k' = k then (k', v' + v) :: rest else (k', v') :: bump rest k v

/-- Model of pandas `groupby(keys).sum()` (key order: first occurrence;
pandas additionally sorts keys, which no theorem below depends on). -/
def groupSum {κ : Type} [DecidableEq κ] (l : List (κ × ℚ)) : List (κ × ℚ) :=
  l.foldl (fun acc p => bump acc p.1 p.2) []

/-! ## Toll-zone aggregator
(src/predictive_modeling/predictions/.ipynb_checkpoints/toggles-checkpoint.py) -/

/-- A pandas cell: a string, a (floating-point, modelled exact) number, or
NaN / missing. -/
inductive Val : Type
  | str (s : String)
  | num (q : ℚ)
  | null
deriving DecidableEq

/-- Model of `pd.to_numeric(x, errors="coerce").fillna(0)`: numbers pass
through, integer-literal strings parse, everything else becomes NaN → 0. -/
def toNum : Val → ℚ
  | Val.num q => q
  | Val.str s => match s.toInt? with
      | some n => (n : ℚ)
      | none => 0
  | Val.null => 0

/-- One row of a per-class prediction table: columns
`Toll 10 Minute Block`, `Detection Region`, and the entries column. -/
structure TollRow : Type where
  block : Val
  region : Val
  entries : Val
deriving DecidableEq

/-- A per-class prediction table.  `entriesCol` records the column name the
entries column carries ("Predicted CRZ Entries" for loaded tables,
"Total Predicted CRZ Entries" after `aggregate_by_time_and_region` renames
it). -/
structure TollFrame : Type where
  entriesCol : String
  rows : List TollRow
deriving DecidableEq

/-- The numeric-coerced `(block, region)`-keyed entries of one class table,
as fed to `groupby(["Toll 10 Minute Block", "Detection Region"]).sum()`. -/
def coerceRows (df : TollFrame) : List ((Val × Val) × ℚ) :=
  df.rows.map (fun r => ((r.block, r.region), toNum r.entries))

/-- Total of the (numeric-coerced) entries column of a table. -/
def classSum (df : TollFrame) : ℚ := (df.rows.map (fun r => toNum r.entries)).sum

/-- The loop body of `aggregate_by_time_and_region`: walk the toggle map and
collect, for each enabled class, its grouped `(block, region) ↦ sum` list.
An enabled key absent from `dataframes` raises `KeyError`. -/
def collectParts (frames : List (String × TollFrame)) :
    List (String × Bool) → Except String (List (List ((Val × Val) × ℚ)))
  | [] => Except.ok []
  | (key, isOn) :: rest =>
      if isOn then
        match lookupD frames key with
        | none => Except.error ("No dataframe found for key: " ++ key)
        | some df =>
            match collectParts frames rest with
            | Except.error e => Except.error e
            | Except.ok tail => Except.ok (groupSum (coerceRows df) :: tail)
      else collectParts frames rest

/-- Model of `aggregate_by_time_and_region(toggles)`: per-class coerce and
group, concat, re-group, and rename the entries column to
"Total Predicted CRZ Entries". -/
def aggregate_by_time_and_region (frames : List (String × TollFrame))
    (toggles : List (String × Bool)) : Except String TollFrame :=
  match collectParts frames toggles with
  | Except.error e => Except.error e
  | Except.ok [] => Except.ok ⟨"Total Predicted CRZ Entries", []⟩
  | Except.ok (p :: ps) =>
      Except.ok ⟨"Total Predicted CRZ Entries",
        (groupSum ((p :: ps).flatten)).map (fun q => ⟨q.1.1, q.1.2, Val.num q.2⟩)⟩

/-- The `zone_coords` constant table (latitude, longitude). -/
def zone_coords : List (String × (ℚ × ℚ)) :=
  [("brooklyn", (407061/10000, -739969/10000)),
   ("east 60th street", (407616/10000, -739644/10000)),
   ("fdr drive", (407626/10000, -739582/10000)),
   ("new jersey", (407608/10000, -740075/10000)),
   ("queens", (407440/10000, -739675/10000)),
   ("west 60th street", (407700/10000, -739850/10000)),
   ("west side highway", (407711/10000, -739897/10000))]

/-- The whitespace-collapsing part of the region-key normalization:
`' '.join(raw.strip().lower().split())` on characters. -/
def collapseChars (raw : List Char) : List Char :=
  List.intercalate [' '] (pySplit ((pyStrip raw).map lowerChar))

/-- Region-key normalization of `format_toggle_data`, on characters:
collapse whitespace and lowercase, then force the two 60th-street keys
(two successive `if` statements, exactly as in the source). -/
def normalizeRegionChars (raw : List Char) : List Char :=
  let collapsed := collapseChars raw
  let k1 := if containsSeq "east".data collapsed && containsSeq "60th".data collapsed
            then "east 60th street".data else collapsed
  if containsSeq "west".data k1 && containsSeq "60th".data k1
  then "west 60th street".data else k1

/-- Region-key normalization on strings. -/
def normalizeRegion (s : String) : String := String.mk (normalizeRegionChars s.data)

/-- One output record of `format_toggle_data`. -/
structure ToggleObj : Type where
  latitude : Option ℚ
  longitude : Option ℚ
  time : Val
  predictionCRZ : Val
deriving DecidableEq

/-- Row loop of `format_toggle_data`.  `row["Detection Region"].strip()` on a
non-string raises `AttributeError`; `row["Predicted CRZ Entries"]` raises
`KeyError` when the frame's entries column carries a different name. -/
def formatRows (entriesCol : String) : List TollRow → Except String (List ToggleObj)
  | [] => Except.ok []
  | r :: rest =>
      match r.region with
      | Val.str raw =>
          let key := normalizeRegion raw
          let coords := (lookupD zone_coords key).map (fun p => (some p.1, some p.2))
          let latlon := coords.getD (none, none)
          if entriesCol = "Predicted CRZ Entries" then
            match formatRows entriesCol rest with
            | Except.error e => Except.error e
            | Except.ok objs =>
                Except.ok (⟨latlon.1, latlon.2, r.block, r.entries⟩ :: objs)
          else Except.error "KeyError: Predicted CRZ Entries"
      | _ => Except.error "AttributeError: strip on non-string Detection Region"

/-- Model of `format_toggle_data(df)`. -/
def format_toggle_data (df : TollFrame) : Except String (List ToggleObj) :=
  formatRows df.entriesCol df.rows

/-- One row of the taxi prediction table (`time_interval`, `count`,
`LocationID`). -/
structure TaxiRow : Type where
  time_interval : ℚ
  count : Val
  locationID : ℤ
deriving DecidableEq

/-- A pivot table as produced by `pivot` / `reindex`: `index` lists the row
labels, `cols` the column labels, and `cells` holds, row-major and aligned
with `index` × `cols`, `none` for NaN and `some q` for a number. -/
structure PivotTable : Type where
  index : List ℚ
  cols : List ℤ
  cells : List (List (Option ℚ))
deriving DecidableEq

/-- Model of `aggregate_taxi_by_time_and_location(taxi_df,
toggles_time_intervals)`.  `max` of an empty sequence raises `ValueError`.
`pivot` leaves NaN (`none`) at `(index, col)` pairs with no group;
`reindex(..., fill_value=0)` fills only the rows it newly adds. -/
def aggregate_taxi_by_time_and_location (taxi : List TaxiRow)
    (toggles_time_intervals : List ℚ) : Except String PivotTable :=
  match toggles_time_intervals.max? with
  | none => Except.error "ValueError: max() arg is an empty sequence"
  | some maxInterval =>
      let coerced := taxi.map (fun r => (r.time_interval, r.locationID, toNum r.count))
      let trimmed := coerced.filter (fun r => r.1 ≤ maxInterval)
      let aggregated := groupSum (trimmed.map (fun r => ((r.1, r.2.1), r.2.2)))
      let pivotIndex := sortAsc (uniqueList (aggregated.map (fun p => p.1.1)))
      let pivotCols := sortAsc (uniqueList (aggregated.map (fun p => p.1.2)))
      let pivotRow := fun (i : ℚ) => pivotCols.map (fun c => lookupD aggregated (i, c))
      Except.ok
        { index := toggles_time_intervals
          cols := pivotCols
          cells := toggles_time_intervals.map (fun i =>
            if i ∈ pivotIndex then pivotRow i else pivotCols.map (fun _ => some 0)) }


/-! ## Ridership predictor (src/utils/ridership.py) -/

/-- Decimal digit value. -/
def digitVal (c : Char) : Option Nat :=
  if '0' ≤ c ∧ c ≤ '9' then some (c.toNat - '0'.toNat) else none

def digitsToNatAux : List Char → Nat → Option Nat
  | [], acc => some acc
  | c :: cs, acc =>
      match digitVal c with
      | none => none
      | some d => digitsToNatAux cs (acc * 10 + d)

/-- Parse a non-empty all-digit character list. -/
def digitsToNat : List Char → Option Nat
  | [] => none
  | l => digitsToNatAux l 0

/-- Model of Python `int(str)` on plain decimal literals (optionally signed). -/
def parsePyInt : List Char → Option Int
  | '-' :: rest => (digitsToNat rest).map (fun n => -(n : Int))
  | '+' :: rest => (digitsToNat rest).map (fun n => (n : Int))
  | l => (digitsToNat l).map (fun n => (n : Int))

/-- Split on a separator character, keeping empty chunks
(Python `str.split(sep)`). -/
def splitOnCharAux (sep : Char) : List Char → List Char → List (List Char)
  | [], acc => [acc.reverse]
  | c :: cs, acc =>
      if c = sep then acc.reverse :: splitOnCharAux sep cs []
      else splitOnCharAux sep cs (c :: acc)

def splitOnChar (sep : Char) (l : List Char) : List (List Char) :=
  splitOnCharAux sep l []

/-- Model of `hour, minute = map(int, time_str.split(':'))`: succeeds exactly
when there are two colon-separated integer parts; any failure raises and is
caught by the predictor's fallback. -/
def parseTime (s : String) : Option (Int × Int) :=
  match splitOnChar ':' s.data with
  | [h, m] =>
      match parsePyInt h, parsePyInt m with
      | some a, some b => some (a, b)
      | _, _ => none
  | _ => none

/-- The `(hour, minute)` the predictor uses: parsed from `time_str`, with the
wall clock `now` as fallback on parse failure or absence. -/
def resolveTime (time_str : Option String) (now : Int × Int) : Int × Int :=
  match time_str with
  | none => now
  | some s => (parseTime s).getD now

/-- The `day_map` dictionary of the predictor. -/
def day_map : List (String × String) :=
  [("monday", "Monday"), ("tuesday", "Tuesday"), ("wednesday", "Wednesday"),
   ("thursday", "Thursday"), ("friday", "Friday"), ("saturday", "Saturday"),
   ("sunday", "Sunday"), ("weekday", "Weekday"), ("weekend", "Weekend"),
   ("weekdays", "Weekday"), ("weekends", "Weekend"), ("all", "All")]

/-- `day_map.get(day_str.lower(), 'Weekday')`, with the wall-clock day name
as default for an absent `day_str`. -/
def resolveDay (day_str : Option String) (nowDay : String) : String :=
  let d := day_str.getD nowDay
  (lookupD day_map (String.mk (d.data.map lowerChar))).getD "Weekday"

/-- `day_of_week in ['Weekday', 'Weekend', 'All']`. -/
def isAggregate (dayOfWeek : String) : Bool :=
  dayOfWeek = "Weekday" || dayOfWeek = "Weekend" || dayOfWeek = "All"

def weekdaysList : List String :=
  ["Monday", "Tuesday", "Wednesday", "Thursday", "Friday"]

def weekendList : List String := ["Saturday", "Sunday"]

/-- One entry of the model artifact's `by_station` section. -/
structure StationModel : Type where
  avg_ridership : ℚ
  ar_params : Option (List ℚ)
deriving DecidableEq

/-- The unpickled model artifact: four sections keyed by station name. -/
structure Models : Type where
  by_station : List (String × StationModel)
  day_of_week_factors : List (String × List (String × ℚ))
  time_patterns : List (String × List (Int × ℚ))
  by_day_and_time : List (String × List (String × List (Int × ℚ)))
deriving DecidableEq

/-- `time_factor`: `time_patterns[station].get(time_bin, 1.0)` when the
station has patterns, else 1.0. -/
def timeFactor (models : Models) (station : String) (timeBin : Int) : ℚ :=
  match lookupD models.time_patterns station with
  | some tp => (lookupD tp timeBin).getD 1
  | none => 1

/-- `day_factor`: the aggregate-day average of available factors, or the
specific day's factor, defaulting to 1.0. -/
def dayFactor (models : Models) (station : String) (dayOfWeek : String)
    (isAgg : Bool) : ℚ :=
  if isAgg then
    match lookupD models.day_of_week_factors station with
    | some dfs =>
        if dayOfWeek = "Weekday" then
          let avail := weekdaysList.filter (fun d => (lookupD dfs d).isSome)
          if avail = [] then 1
          else (avail.map (fun d => (lookupD dfs d).getD 1)).sum / (avail.length : ℚ)
        else if dayOfWeek = "Weekend" then
          let avail := weekendList.filter (fun d => (lookupD dfs d).isSome)
          if avail = [] then 1
          else (avail.map (fun d => (lookupD dfs d).getD 1)).sum / (avail.length : ℚ)
        else 1
    | none => 1
  else
    match lookupD models.day_of_week_factors station with
    | some dfs => (lookupD dfs dayOfWeek).getD 1
    | none => 1

/-- `specific_prediction`: the `by_day_and_time[station][day][time_bin]` cell,
taken only for non-aggregate days. -/
def specificPrediction (models : Models) (station : String) (dayOfWeek : String)
    (isAgg : Bool) (timeBin : Int) : Option ℚ :=
  match lookupD models.by_day_and_time station with
  | some byDay =>
      if isAgg then none
      else
        match lookupD byDay dayOfWeek with
        | some dayTime => lookupD dayTime timeBin
        | none => none
  | none => none

/-- The deterministic time-of-day adjustment chain applied to `prediction`
after the branch choice (floats 0.5, 1.5, 1.4, 0.7 as exact rationals). -/
def applyOverlay (hour : Int) (p : ℚ) : ℚ :=
  if 0 ≤ hour ∧ hour < 5 then p * ((1 / 2) * ((hour : ℚ) + 1) / 5)
  else if 7 ≤ hour ∧ hour ≤ 9 then p * (3 / 2)
  else if 16 ≤ hour ∧ hour ≤ 19 then p * (7 / 5)
  else if 22 ≤ hour ∧ hour < 24 then p * (7 / 10)
  else p

/-- The per-station prediction before the random jitter, floor and rounding:
specific cell if present (non-aggregate day) else the factor product, then
the time-of-day overlay (which the source applies on both branches). -/
def preJitterPrediction (models : Models) (station : String) (sd : StationModel)
    (hour timeBin : Int) (dayOfWeek : String) (isAgg : Bool) : ℚ :=
  let pred :=
    match specificPrediction models station dayOfWeek isAgg timeBin with
    | some v => v
    | none => sd.avg_ridership * dayFactor models station dayOfWeek isAgg
        * timeFactor models station timeBin
  applyOverlay hour pred

/-- Full per-station prediction: jitter, `max(10, ·)`, `round(·, 2)`. -/
def predictStation (models : Models) (station : String) (sd : StationModel)
    (hour timeBin : Int) (dayOfWeek : String) (isAgg : Bool) (jitter : ℚ) : ℚ :=
  round2 (max 10 (preJitterPrediction models station sd hour timeBin dayOfWeek isAgg * jitter))

/-- `generate_fallback_predictions`: degraded mode when the model file is
missing or unreadable; `baseOf` models `np.random.randint(200, 800)`. -/
def generate_fallback_predictions (registry : List String) (currentHour : Int)
    (baseOf : String → ℤ) : List (String × ℚ) :=
  let multiplier : ℚ :=
    if 7 ≤ currentHour ∧ currentHour ≤ 9 then 5 / 2
    else if 16 ≤ currentHour ∧ currentHour ≤ 19 then 23 / 10
    else if 22 ≤ currentHour ∨ currentHour ≤ 5 then 2 / 5
    else 1
  registry.map (fun s => (s, round2 ((baseOf s : ℚ) * multiplier)))

/-- Model of `ridership(time_str, day_str)`.  Oracle parameters:
`loaded` is the unpickled artifact (`none` = file missing or invalid, which
the source answers with `generate_fallback_predictions`); `jitterOf` models
`np.random.uniform(0.9, 1.1)` per station; `randOf` models
`np.random.randint(100, 1000)` (used both for stations absent from
`by_station` and in the per-station `except` handler); `excOf` marks the
stations whose per-station computation raises at runtime (undecidable in a
shallow embedding, so taken as an oracle); `now`, `nowDay` and `nowHour`
model the wall clock reads. -/
def ridership (registry : List String) (time_str day_str : Option String)
    (now : Int × Int) (nowDay : String) (nowHour : Int) (loaded : Option Models)
    (jitterOf : String → ℚ) (randOf : String → ℤ) (excOf : String → Bool)
    (fallbackBase : String → ℤ) : List (String × ℚ) :=
  let hm := resolveTime time_str now
  let timeBin := Int.fdiv (hm.1 * 60 + hm.2) 10
  let dayOfWeek := resolveDay day_str nowDay
  let isAgg := isAggregate dayOfWeek
  match loaded with
  | none => generate_fallback_predictions registry nowHour fallbackBase
  | some models =>
      registry.map (fun station =>
        if excOf station then (station, ((randOf station : ℤ) : ℚ))
        else
          match lookupD models.by_station station with
          | none => (station, ((randOf station : ℤ) : ℚ))
          | some sd =>
              (station, predictStation models station sd hm.1 timeBin dayOfWeek isAgg
                (jitterOf station)))

/-- All time-pattern and day-and-time bins of a model artifact lie in
`[.., 143]`, as the builder guarantees (its bins come from
`(hour * 60 + minute) // 10` with in-range wall-clock fields). -/
def binsBounded (models : Models) : Prop :=
  (∀ p ∈ models.time_patterns, ∀ q ∈ p.2, q.1 ≤ 143)
  ∧ (∀ p ∈ models.by_day_and_time, ∀ d ∈ p.2, ∀ q ∈ d.2, q.1 ≤ 143)

/-! ## Historical ingestor (src/utils/ridership_model.py, fetch_historical_data) -/

/-- One HTTP request: the `transit_timestamp` filter window (in seconds) and
the `$limit` parameter. -/
structure Req : Type where
  start : Nat
  stop : Nat
  limit : Nat
deriving DecidableEq

/-- `timedelta(days=7)` in seconds. -/
def weekSecs : Nat := 604800

/-- The retry loop (`for attempt in range(max_retries)`): the oracle maps a
request and attempt index to `some rows` (HTTP 200; rows modelled by their
`transit_timestamp` in seconds) or `none` (transport error or non-2xx).
Returns how many requests were issued and the response, if any. -/
def retryFrom (oracle : Req → Nat → Option (List Nat)) (r : Req) (attempt : Nat) :
    Nat → Nat × Option (List Nat)
  | 0 => (0, none)
  | rem + 1 =>
      match oracle r attempt with
      | some rows => (1, some rows)
      | none =>
          let res := retryFrom oracle r (attempt + 1) rem
          (res.1 + 1, res.2)

/-- The window loop of `fetch_historical_data`, fuel-indexed (each iteration
advances `current` by at least one second, so `end + 2 - start` fuel always
suffices).  Returns the full request log and the concatenated rows. -/
def fetchLoop (oracle : Req → Nat → Option (List Nat)) (limit endDate : Nat) :
    Nat → Nat → List Req × List Nat
  | 0, _ => ([], [])
  | fuel + 1, current =>
      if current ≤ endDate then
        let batchEnd := min (current + weekSecs) endDate
        let r : Req := ⟨current, batchEnd, limit⟩
        let res := retryFrom oracle r 0 3
        let rest := fetchLoop oracle limit endDate fuel (batchEnd + 1)
        (List.replicate res.1 r ++ rest.1, res.2.getD [] ++ rest.2)
      else ([], [])

/-- Model of `fetch_historical_data(start_date, end_date, batch_size)`. -/
def fetch_historical_data (oracle : Req → Nat → Option (List Nat))
    (startDate endDate limit : Nat) : List Req × List Nat :=
  fetchLoop oracle limit endDate (endDate + 2 - startDate) startDate

/-- The pure 7-day window partition of `[current, endDate]`, fuel-indexed the
same way as `fetchLoop`. -/
def windowsFrom (endDate : Nat) : Nat → Nat → List (Nat × Nat)
  | 0, _ => []
  | fuel + 1, current =>
      if current ≤ endDate then
        (current, min (current + weekSecs) endDate)
          :: windowsFrom endDate fuel (min (current + weekSecs) endDate + 1)
      else []

/-- How many requests the retry loop issues for a given window. -/
def attemptCount (oracle : Req → Nat → Option (List Nat)) (limit : Nat)
    (w : Nat × Nat) : Nat :=
  (retryFrom oracle ⟨w.1, w.2, limit⟩ 0 3).1

/-- The concrete responses used to exercise the pagination claim: the first
window answers with exactly `limit` (= 2) rows, later windows with one row. -/
def c2Oracle : Req → Nat → Option (List Nat) :=
  fun r _ => if r.start = 0 then some [100, 200] else some [650000]

/-! ## Raw-data processing (src/utils/ridership_model.py, process_raw_data) -/

/-- A raw API table: the response's column names, and rows as
column-name-keyed cells. -/
structure RawFrame : Type where
  cols : List String
  rows : List (List (String × Val))
deriving DecidableEq

/-- The four columns `process_raw_data` selects. -/
def requiredCols : List String :=
  ["station_complex", "ridership", "transfers", "transit_timestamp"]

/-- Head match of the regex `\s*\([^)]+\)`: optional whitespace, then a
non-empty parenthesized group; returns the remainder on success. -/
def matchParen (l : List Char) : Option (List Char) :=
  match l.dropWhile isSpace with
  | '(' :: rest =>
      match rest.dropWhile (fun c => c ≠ ')') with
      | ')' :: rest2 =>
          if rest.takeWhile (fun c => c ≠ ')') = [] then none else some rest2
      | _ => none
  | _ => none

def stripParensFuel : Nat → List Char → List Char
  | 0, l => l
  | fuel + 1, l =>
      match matchParen l with
      | some rest => stripParensFuel fuel rest
      | none =>
          match l with
          | [] => []
          | c :: cs => c :: stripParensFuel fuel cs

/-- Model of `.str.replace(r"\s*\([^)]+\)", "", regex=True)`. -/
def stripParens (l : List Char) : List Char := stripParensFuel (l.length + 1) l

/-- What `pd.to_datetime` plus the `.dt` accessors extract from a timestamp
cell (an oracle models the datetime library): an ordering key, `day_name()`,
`hour` and `minute`. -/
structure DtParts : Type where
  ord : Nat
  day_name : String
  hour : Nat
  minute : Nat
deriving DecidableEq

/-- `pd.to_numeric(x, errors="coerce")` without `fillna`: NaN stays `none`. -/
def toNumOpt : Val → Option ℚ
  | Val.num q => some q
  | Val.str s => (s.toInt?).map (fun n => (n : ℚ))
  | Val.null => none

/-- One consolidated observation row (the output schema of
`process_raw_data`). -/
structure ProcRow : Type where
  transit_timestamp : Nat
  station_complex : String
  ridership : ℚ
  transfers : ℚ
  day_of_week : String
  hour : Nat
  minute : Nat
  time_bin : Int
deriving DecidableEq

/-- `bump` for two summed columns (ridership, transfers). -/
def bump2 {κ : Type} [DecidableEq κ] : List (κ × ℚ × ℚ) → κ → ℚ → ℚ → List (κ × ℚ × ℚ)
  | [], k, v, w => [(k, v, w)]
  | (k', v', w') :: rest, k, v, w =>
      if k' = k then (k', v' + v, w' + w) :: rest
      else (k', v', w') :: bump2 rest k v w

/-- `groupby(keys).agg({"ridership": "sum", "transfers": "sum"})`. -/
def groupSum2 {κ : Type} [DecidableEq κ] (l : List (κ × ℚ × ℚ)) : List (κ × ℚ × ℚ) :=
  l.foldl (fun acc p => bump2 acc p.1 p.2.1 p.2.2) []

/-- The success path of `process_raw_data`: split `station_complex` on "/",
strip parentheticals and surrounding whitespace, coerce numerics, drop rows
with NaN ridership, consolidate by `(transit_timestamp, station)` summing
ridership and transfers (pandas `sum` skips NaN, hence `toNum` for
transfers), filter to registry stations, and add the time features. -/
def processBody (rows : List (List (String × Val))) (registry : List String)
    (dt : Val → DtParts) : List ProcRow :=
  let getCell := fun (r : List (String × Val)) (c : String) => (lookupD r c).getD Val.null
  let expanded := rows.flatMap (fun r =>
    match getCell r "station_complex" with
    | Val.str s =>
        (splitOnChar '/' s.data).map (fun name =>
          (String.mk (pyStrip (stripParens name)),
            getCell r "ridership", getCell r "transfers", getCell r "transit_timestamp"))
    | _ => [])
  let numeric := expanded.filterMap (fun e =>
    match toNumOpt e.2.1 with
    | some rid => some (e.1, rid, toNum e.2.2.1, e.2.2.2)
    | none => none)
  let consolidated := groupSum2 (numeric.map (fun e =>
    ((dt e.2.2.2, e.1), e.2.1, e.2.2.1)))
  let filtered := consolidated.filter (fun p => p.1.2 ∈ registry)
  filtered.map (fun p =>
    { transit_timestamp := p.1.1.ord
      station_complex := p.1.2
      ridership := p.2.1
      transfers := p.2.2
      day_of_week := p.1.1.day_name
      hour := p.1.1.hour
      minute := p.1.1.minute
      time_bin := (((p.1.1.hour * 60 + p.1.1.minute) / 10 : Nat) : Int) })

/-- Model of `process_raw_data(df_raw, manhattan_stops)`.  The `Except` layer
records whether an exception escapes: the source catches both the `KeyError`
of the column selection and any processing exception and returns an empty
DataFrame, so every branch is `Except.ok`. -/
def process_raw_data (df : RawFrame) (registry : List String)
    (dt : Val → DtParts) : Except String (List ProcRow) :=
  if df.rows.length = 0 then Except.ok []
  else if ∀ c ∈ requiredCols, c ∈ df.cols then
    Except.ok (processBody df.rows registry dt)
  else Except.ok []

/-! ## Model builder (src/utils/ridership_model.py, build_time_of_day_models) -/

def days_of_week : List String :=
  ["Monday", "Tuesday", "Wednesday", "Thursday", "Friday", "Saturday", "Sunday"]

/-- The rows of one station (`processed_data[processed_data["station_complex"]
== station]`). -/
def stationRows (data : List ProcRow) (s : String) : List ProcRow :=
  data.filter (fun r => r.station_complex = s)

/-- pandas `.mean()` of a column. -/
def listMean (l : List ℚ) : ℚ := l.sum / (l.length : ℚ)

/-- The observed time bins of a row set, ascending (pandas groupby index). -/
def observedBins (rows : List ProcRow) : List Int :=
  sortAsc (uniqueList (rows.map (fun r => r.time_bin)))

/-- Mean ridership of the rows in one time bin. -/
def binMean (rows : List ProcRow) (b : Int) : ℚ :=
  listMean ((rows.filter (fun r => r.time_bin = b)).map (fun r => r.ridership))

/-- `sorted(time_bin_avg.index, key=lambda x: abs(x - time_bin))[0]`: the
observed bin nearest to `b`; Python's stable sort of the ascending index
breaks ties toward the smaller bin, as does this left fold. -/
def closestBin (bins : List Int) (b : Int) : Option Int :=
  bins.foldl (fun best x =>
    match best with
    | none => some x
    | some y => if |x - b| < |y - b| then some x else some y) none

/-- `day_of_week_factors[station]`: one factor per day of the week. -/
def mkDayFactors (rows : List ProcRow) (avg : ℚ) : List (String × ℚ) :=
  days_of_week.map (fun d =>
    let dayData := rows.filter (fun r => r.day_of_week = d)
    (d, if 0 < dayData.length then
          (if 0 < avg then listMean (dayData.map (fun r => r.ridership)) / avg else 1)
        else 1))

/-- `time_patterns[station]`: dense over bins 0..143, observed bins by their
relative mean, unobserved bins from the nearest observed bin. -/
def mkTimePatterns (rows : List ProcRow) (avg : ℚ) : List (Int × ℚ) :=
  let binsObs := observedBins rows
  (List.range 144).map (fun tb =>
    ((tb : Int),
      if (tb : Int) ∈ binsObs then
        (if 0 < avg then binMean rows (tb : Int) / avg else 1)
      else
        match closestBin binsObs (tb : Int) with
        | some cb => if 0 < avg then binMean rows cb / avg else 1
        | none => 1))

/-- `by_day_and_time[station]`: for each day with at least 12 rows, the
per-bin means over that day's observed bins. -/
def mkDayTime (rows : List ProcRow) : List (String × List (Int × ℚ)) :=
  days_of_week.filterMap (fun d =>
    let dayData := rows.filter (fun r => r.day_of_week = d)
    if dayData.length < 12 then none
    else some (d, (observedBins dayData).map (fun b => (b, binMean dayData b))))

def insertByTs (r : ProcRow) : List ProcRow → List ProcRow
  | [] => [r]
  | x :: l =>
      if r.transit_timestamp ≤ x.transit_timestamp then r :: x :: l
      else x :: insertByTs r l

/-- `sort_values("transit_timestamp")`. -/
def sortByTs (rows : List ProcRow) : List ProcRow := rows.foldr insertByTs []

/-- The `by_station` record of one station: skipped below 24 rows; the AR
step (source's second loop) stores `ar_params` for stations with at least 30
rows `if station in models_dict["by_station"]` — 30 ≥ 24, so that guard is
folded into the record. -/
def byStationEntry (data : List ProcRow) (arFit : List ℚ → Option (List ℚ))
    (s : String) : Option (String × StationModel) :=
  let rows := stationRows data s
  if 24 ≤ rows.length then
    some (s, { avg_ridership := listMean (rows.map (fun r => r.ridership))
               ar_params :=
                 if 30 ≤ rows.length then
                   arFit ((sortByTs rows).map (fun r => r.ridership))
                 else none })
  else none

/-- The `day_of_week_factors` record of one station. -/
def dayFactorsEntry (data : List ProcRow) (s : String) :
    Option (String × List (String × ℚ)) :=
  let rows := stationRows data s
  if 24 ≤ rows.length then
    some (s, mkDayFactors rows (listMean (rows.map (fun r => r.ridership))))
  else none

/-- The `time_patterns` record of one station. -/
def timePatternsEntry (data : List ProcRow) (s : String) :
    Option (String × List (Int × ℚ)) :=
  let rows := stationRows data s
  if 24 ≤ rows.length then
    some (s, mkTimePatterns rows (listMean (rows.map (fun r => r.ridership))))
  else none

/-- The `by_day_and_time` record of one station: present only when some day
reaches 12 rows. -/
def dayTimeEntry (data : List ProcRow) (s : String) :
    Option (String × List (String × List (Int × ℚ))) :=
  let rows := stationRows data s
  if 24 ≤ rows.length then
    let dayMaps := mkDayTime rows
    if dayMaps = [] then none else some (s, dayMaps)
  else none

/-- Model of `build_time_of_day_models(processed_data)`.  The statsmodels
`AutoReg(...).fit()` call is a floating-point numeric routine outside this
code base, modelled by the `arFit` oracle (`none` = the fit raised, which the
source tolerates).  With no data the source returns `{}`, which this model
renders as four empty sections. -/
def build_time_of_day_models (data : List ProcRow)
    (arFit : List ℚ → Option (List ℚ)) : Models :=
  let stations := uniqueList (data.map (fun r => r.station_complex))
  { by_station := stations.filterMap (byStationEntry data arFit)
    day_of_week_factors := stations.filterMap (dayFactorsEntry data)
    time_patterns := stations.filterMap (timePatternsEntry data)
    by_day_and_time := stations.filterMap (dayTimeEntry data) }

/-! ## Supporting lemmas: rounding and group-sums -/

theorem round2_ge (n : ℤ) (q : ℚ) (h : (n : ℚ) ≤ q) : (n : ℚ) ≤ round2 q := by
  unfold round2
  rw [round_eq]
  have hfl : (100 * n : ℤ) ≤ ⌊100 * q + 1 / 2⌋ := by
    have h0 : ((100 * n : ℤ) : ℚ) ≤ 100 * q + 1 / 2 := by push_cast; linarith
    exact Int.le_floor.mpr h0
  have hc : ((100 * n : ℤ) : ℚ) ≤ ((⌊100 * q + 1 / 2⌋ : ℤ) : ℚ) := by exact_mod_cast hfl
  push_cast at hc ⊢
  linarith


theorem sum_bump {κ : Type} [DecidableEq κ] (acc : List (κ × ℚ)) (k : κ) (v : ℚ) :
    ((bump acc k v).map Prod.snd).sum = (acc.map Prod.snd).sum + v := by
  induction acc with
  | nil => simp [bump]
  | cons p rest ih =>
      obtain ⟨k', v'⟩ := p
      by_cases hk : k' = k
      · simp [bump, hk]; ring
      · simp [bump, hk, ih]; ring

theorem sum_groupSum_aux {κ : Type} [DecidableEq κ] (l : List (κ × ℚ))
    (acc : List (κ × ℚ)) :
    ((l.foldl (fun acc p => bump acc p.1 p.2) acc).map Prod.snd).sum
      = (acc.map Prod.snd).sum + (l.map Prod.snd).sum := by
  induction l generalizing acc with
  | nil => simp
  | cons p rest ih => simp [List.foldl_cons, ih, sum_bump]; ring

/-- `groupSum` preserves the total of the summed column. -/
theorem sum_groupSum {κ : Type} [DecidableEq κ] (l : List (κ × ℚ)) :
    ((groupSum l).map Prod.snd).sum = (l.map Prod.snd).sum := by
  have h := sum_groupSum_aux l ([] : List (κ × ℚ))
  simpa [groupSum] using h


/-! ## Supporting lemmas: Python string normalization -/

theorem lowerChar_mem_or (c : Char) :
    lowerChar c = c ∨ lowerChar c ∈ "abcdefghijklmnopqrstuvwxyz".data := by
  unfold lowerChar
  split <;> first | (left; rfl) | (right; decide)

theorem lowerChar_fix_lower : ∀ d ∈ "abcdefghijklmnopqrstuvwxyz".data, lowerChar d = d := by
  decide

theorem lowerChar_idem (c : Char) : lowerChar (lowerChar c) = lowerChar c := by
  rcases lowerChar_mem_or c with h | h
  · rw [h, h]
  · exact lowerChar_fix_lower _ h

theorem pySplitAux_words_wf : ∀ (m acc : List Char),
    (∀ c ∈ acc, isSpace c = false) →
    ∀ w ∈ pySplitAux m acc, w ≠ [] ∧ ∀ c ∈ w, isSpace c = false := by
  intro m
  induction m with
  | nil =>
      intro acc hacc w hw
      simp only [pySplitAux] at hw
      by_cases h : acc = []
      · simp [h] at hw
      · simp [h] at hw
        subst hw
        constructor
        · simpa using h
        · intro c hc
          exact hacc c (by simpa using hc)
  | cons a m ih =>
      intro acc hacc w hw
      simp only [pySplitAux] at hw
      by_cases hs : isSpace a
      · rw [if_pos hs] at hw
        by_cases h : acc = []
        · rw [if_pos h] at hw
          exact ih [] (by simp) w hw
        · rw [if_neg h] at hw
          rcases List.mem_cons.mp hw with h1 | h2
          · subst h1
            constructor
            · simpa using h
            · intro c hc
              exact hacc c (by simpa using hc)
          · exact ih [] (by simp) w h2
      · rw [if_neg hs] at hw
        refine ih (a :: acc) ?_ w hw
        intro c hc
        rcases List.mem_cons.mp hc with h1 | h2
        · subst h1; simpa using hs
        · exact hacc c h2

theorem pySplitAux_words_chars : ∀ (m acc : List Char),
    ∀ w ∈ pySplitAux m acc, ∀ c ∈ w, c ∈ m ∨ c ∈ acc := by
  intro m
  induction m with
  | nil =>
      intro acc w hw c hc
      simp only [pySplitAux] at hw
      by_cases h : acc = []
      · simp [h] at hw
      · simp [h] at hw
        subst hw
        right
        simpa using hc
  | cons a m ih =>
      intro acc w hw c hc
      simp only [pySplitAux] at hw
      by_cases hs : isSpace a
      · rw [if_pos hs] at hw
        by_cases h : acc = []
        · rw [if_pos h] at hw
          rcases ih [] w hw c hc with h1 | h2
          · exact Or.inl (List.mem_cons_of_mem a h1)
          · simp at h2
        · rw [if_neg h] at hw
          rcases List.mem_cons.mp hw with h1 | h2
          · subst h1
            right
            simpa using hc
          · rcases ih [] w h2 c hc with h1 | h1
            · exact Or.inl (List.mem_cons_of_mem a h1)
            · simp at h1
      · rw [if_neg hs] at hw
        rcases ih (a :: acc) w hw c hc with h1 | h1
        · exact Or.inl (List.mem_cons_of_mem a h1)
        · rcases List.mem_cons.mp h1 with h2 | h2
          · subst h2; exact Or.inl (List.mem_cons_self c m)
          · exact Or.inr h2

theorem pySplit_words_wf (m : List Char) :
    ∀ w ∈ pySplit m, w ≠ [] ∧ ∀ c ∈ w, isSpace c = false :=
  pySplitAux_words_wf m [] (by simp)

theorem intercalate_nil_words (s : List Char) : List.intercalate s [] = [] := by
  simp [List.intercalate]

theorem intercalate_single (s a : List Char) : List.intercalate s [a] = a := by
  simp [List.intercalate]

theorem intercalate_cons2 (s a b : List Char) (l : List (List Char)) :
    List.intercalate s (a :: b :: l) = a ++ s ++ List.intercalate s (b :: l) := by
  simp [List.intercalate, List.intersperse]

theorem pySplitAux_nonspace_append (w : List Char) :
    ∀ (m acc : List Char), (∀ c ∈ w, isSpace c = false) →
    pySplitAux (w ++ m) acc = pySplitAux m (w.reverse ++ acc) := by
  induction w with
  | nil => intro m acc _; simp
  | cons a w ih =>
      intro m acc hw
      have ha : isSpace a = false := hw a (List.mem_cons_self a w)
      simp only [List.cons_append, pySplitAux, ha]
      rw [if_neg (by simp [ha])]
      simp only [List.append_eq]
      rw [ih m (a :: acc) (fun c hc => hw c (List.mem_cons_of_mem a hc))]
      simp

theorem pySplitAux_allspace (s : List Char) :
    ∀ (acc : List Char), (∀ c ∈ s, isSpace c = true) →
    pySplitAux s acc = if acc = [] then [] else [acc.reverse] := by
  induction s with
  | nil => intro acc _; rfl
  | cons a s ih =>
      intro acc hs
      have ha : isSpace a = true := hs a (List.mem_cons_self a s)
      simp only [pySplitAux, ha, if_true]
      by_cases h : acc = []
      · rw [if_pos h, if_pos h]
        rw [ih [] (fun c hc => hs c (List.mem_cons_of_mem a hc))]
        simp
      · rw [if_neg h, if_neg h]
        rw [ih [] (fun c hc => hs c (List.mem_cons_of_mem a hc))]
        simp

theorem pySplitAux_append_allspace (s : List Char) (hs : ∀ c ∈ s, isSpace c = true) :
    ∀ (m acc : List Char), pySplitAux (m ++ s) acc = pySplitAux m acc := by
  intro m
  induction m with
  | nil =>
      intro acc
      rw [List.nil_append, pySplitAux_allspace s acc hs]
      rfl
  | cons a m ih =>
      intro acc
      simp only [List.cons_append, pySplitAux, List.append_eq]
      by_cases hsp : isSpace a
      · rw [if_pos hsp, if_pos hsp]
        by_cases h : acc = []
        · rw [if_pos h, if_pos h, ih]
        · rw [if_neg h, if_neg h, ih]
      · rw [if_neg hsp, if_neg hsp, ih]

theorem pySplit_lstrip (l : List Char) : pySplit (lstripChars l) = pySplit l := by
  induction l with
  | nil => rfl
  | cons a l ih =>
      by_cases hsp : isSpace a
      · have h1 : lstripChars (a :: l) = lstripChars l := by
          simp [lstripChars, List.dropWhile_cons, hsp]
        rw [h1, ih]
        show pySplit l = pySplitAux (a :: l) []
        simp only [pySplitAux, hsp, if_true, if_pos rfl]
        rfl
      · have h1 : lstripChars (a :: l) = a :: l := by
          simp [lstripChars, List.dropWhile_cons, hsp]
        rw [h1]

theorem pyStrip_split (l : List Char) : pySplit (pyStrip l) = pySplit l := by
  unfold pyStrip
  have hsp : ∀ c ∈ ((lstripChars l).reverse.takeWhile isSpace).reverse, isSpace c = true := by
    intro c hc
    rw [List.mem_reverse] at hc
    exact List.mem_takeWhile_imp hc
  have hdecomp : lstripChars l
      = rstripChars (lstripChars l) ++ ((lstripChars l).reverse.takeWhile isSpace).reverse := by
    unfold rstripChars
    rw [← List.reverse_append, List.takeWhile_append_dropWhile, List.reverse_reverse]
  have h2 : pySplit (lstripChars l) = pySplit (rstripChars (lstripChars l)) := by
    conv_lhs => rw [hdecomp]
    exact pySplitAux_append_allspace _ hsp _ []
  rw [← h2, pySplit_lstrip]

theorem pySplit_word (w : List Char) (hne : w ≠ []) (hw : ∀ c ∈ w, isSpace c = false) :
    pySplit w = [w] := by
  have h := pySplitAux_nonspace_append w [] [] hw
  rw [List.append_nil] at h
  unfold pySplit
  rw [h]
  simp only [pySplitAux, List.append_nil]
  rw [if_neg (by simpa using hne)]
  simp

theorem pySplit_intercalate : ∀ (ws : List (List Char)),
    (∀ w ∈ ws, w ≠ [] ∧ ∀ c ∈ w, isSpace c = false) →
    pySplit (List.intercalate [' '] ws) = ws := by
  intro ws
  induction ws with
  | nil => intro _; rfl
  | cons w ws ih =>
      intro hwf
      obtain ⟨hne, hns⟩ := hwf w (List.mem_cons_self w ws)
      cases ws with
      | nil =>
          rw [intercalate_single]
          exact pySplit_word w hne hns
      | cons w2 ws2 =>
          rw [intercalate_cons2]
          have hrest := ih (fun u hu => hwf u (List.mem_cons_of_mem w hu))
          unfold pySplit
          rw [List.append_assoc, List.singleton_append]
          rw [pySplitAux_nonspace_append w (' ' :: List.intercalate [' '] (w2 :: ws2)) [] hns]
          simp only [pySplitAux]
          rw [if_pos (by rfl), if_neg (by simpa using hne)]
          rw [List.append_nil, List.reverse_reverse]
          unfold pySplit at hrest
          rw [hrest]

theorem mem_intercalate (s : List Char) : ∀ (ws : List (List Char)) (c : Char),
    c ∈ List.intercalate s ws → c ∈ s ∨ ∃ w ∈ ws, c ∈ w := by
  intro ws
  induction ws with
  | nil => intro c hc; rw [intercalate_nil_words] at hc; simp at hc
  | cons w ws ih =>
      intro c hc
      cases ws with
      | nil =>
          rw [intercalate_single] at hc
          right
          exact ⟨w, List.mem_cons_self w [], hc⟩
      | cons w2 ws2 =>
          rw [intercalate_cons2] at hc
          rcases List.mem_append.mp hc with h1 | h2
          · rcases List.mem_append.mp h1 with h3 | h4
            · right; exact ⟨w, List.mem_cons_self _ _, h3⟩
            · left; exact h4
          · rcases ih c h2 with h3 | ⟨u, hu, hcu⟩
            · left; exact h3
            · right; exact ⟨u, List.mem_cons_of_mem w hu, hcu⟩

theorem head_intercalate_cons (a : Char) (w : List Char) (ws : List (List Char)) :
    ∃ t, List.intercalate [' '] ((a :: w) :: ws) = a :: t := by
  cases ws with
  | nil => exact ⟨w, by rw [intercalate_single]⟩
  | cons w2 ws2 =>
      refine ⟨w ++ [' '] ++ List.intercalate [' '] (w2 :: ws2), ?_⟩
      rw [intercalate_cons2]
      simp

theorem getLast?_intercalate (s : List Char) : ∀ (ws : List (List Char)),
    (∀ w ∈ ws, w ≠ []) → ws ≠ [] →
    ∃ c, (List.intercalate s ws).getLast? = some c ∧ ∃ w ∈ ws, c ∈ w := by
  intro ws
  induction ws with
  | nil => intro _ h; exact absurd rfl h
  | cons w ws ih =>
      intro hne _
      cases ws with
      | nil =>
          have hw : w ≠ [] := hne w (List.mem_cons_self w [])
          refine ⟨w.getLast hw, ?_, w, List.mem_cons_self w [], List.getLast_mem hw⟩
          rw [intercalate_single]
          exact List.getLast?_eq_getLast w hw
      | cons w2 ws2 =>
          obtain ⟨c, hc, u, hu, hcu⟩ :=
            ih (fun v hv => hne v (List.mem_cons_of_mem w hv)) (by simp)
          refine ⟨c, ?_, u, List.mem_cons_of_mem w hu, hcu⟩
          rw [intercalate_cons2, List.getLast?_append, hc]
          rfl

theorem collapseChars_mem_lower (l : List Char) :
    ∀ c ∈ collapseChars l, lowerChar c = c := by
  intro c hc
  unfold collapseChars at hc
  rcases mem_intercalate [' '] _ c hc with h1 | ⟨w, hw, hcw⟩
  · have hsp : c = ' ' := by simpa using h1
    subst hsp; rfl
  · rcases pySplitAux_words_chars _ [] w hw c hcw with h2 | h2
    · rcases List.mem_map.mp h2 with ⟨c0, _, hc0⟩
      rw [← hc0]
      exact lowerChar_idem c0
    · simp at h2

theorem lstrip_collapse (l : List Char) :
    lstripChars (collapseChars l) = collapseChars l := by
  unfold collapseChars
  cases hws : pySplit ((pyStrip l).map lowerChar) with
  | nil => rfl
  | cons w ws =>
      have hwf := pySplit_words_wf ((pyStrip l).map lowerChar) w
        (by rw [hws]; exact List.mem_cons_self w ws)
      obtain ⟨hne, hns⟩ := hwf
      cases w with
      | nil => exact absurd rfl hne
      | cons a w2 =>
          obtain ⟨t, ht⟩ := head_intercalate_cons a w2 ws
          rw [ht]
          unfold lstripChars
          simp [List.dropWhile_cons, hns a (List.mem_cons_self a w2)]

theorem rstrip_fix (l : List Char) (c : Char) (h : l.getLast? = some c)
    (hc : isSpace c = false) : rstripChars l = l := by
  unfold rstripChars
  rw [← List.head?_reverse] at h
  cases hrev : l.reverse with
  | nil => rw [hrev] at h; simp at h
  | cons a t =>
      rw [hrev] at h
      have ha : a = c := by simpa using h
      rw [List.dropWhile_cons]
      rw [if_neg (by simp [ha, hc])]
      conv_rhs => rw [← List.reverse_reverse l, hrev]

theorem rstrip_collapse (l : List Char) :
    rstripChars (collapseChars l) = collapseChars l := by
  unfold collapseChars
  cases hws : pySplit ((pyStrip l).map lowerChar) with
  | nil => rfl
  | cons w ws =>
      have hwfAll : ∀ u ∈ w :: ws, u ≠ [] := by
        intro u hu
        refine (pySplit_words_wf ((pyStrip l).map lowerChar) u ?_).1
        rw [hws]; exact hu
      obtain ⟨c, hc, u, hu, hcu⟩ := getLast?_intercalate [' '] (w :: ws) hwfAll (by simp)
      refine rstrip_fix _ c hc ?_
      refine (pySplit_words_wf ((pyStrip l).map lowerChar) u ?_).2 c hcu
      rw [hws]; exact hu

theorem pyStrip_collapse (l : List Char) :
    pyStrip (collapseChars l) = collapseChars l := by
  unfold pyStrip
  rw [lstrip_collapse, rstrip_collapse]

theorem map_lower_collapse (l : List Char) :
    (collapseChars l).map lowerChar = collapseChars l := by
  calc (collapseChars l).map lowerChar
      = (collapseChars l).map id :=
        List.map_congr_left (fun c hc => collapseChars_mem_lower l c hc)
    _ = collapseChars l := List.map_id _

theorem collapseChars_idem (l : List Char) :
    collapseChars (collapseChars l) = collapseChars l := by
  have h1 : collapseChars (collapseChars l)
      = List.intercalate [' '] (pySplit ((pyStrip (collapseChars l)).map lowerChar)) := rfl
  rw [h1, pyStrip_collapse, map_lower_collapse]
  have h2 : pySplit (collapseChars l) = pySplit ((pyStrip l).map lowerChar) := by
    conv_lhs => rw [show collapseChars l
      = List.intercalate [' '] (pySplit ((pyStrip l).map lowerChar)) from rfl]
    exact pySplit_intercalate _ (pySplit_words_wf _)
  rw [h2]
  rfl

theorem normalizeRegionChars_cases (l : List Char) :
    normalizeRegionChars l = "east 60th street".data
    ∨ normalizeRegionChars l = "west 60th street".data
    ∨ (normalizeRegionChars l = collapseChars l
       ∧ (containsSeq "east".data (collapseChars l)
            && containsSeq "60th".data (collapseChars l)) = false
       ∧ (containsSeq "west".data (collapseChars l)
            && containsSeq "60th".data (collapseChars l)) = false) := by
  simp only [normalizeRegionChars]
  by_cases hE : (containsSeq "east".data (collapseChars l)
      && containsSeq "60th".data (collapseChars l)) = true
  · rw [if_pos hE, if_neg (by decide)]
    left; rfl
  · rw [if_neg hE]
    by_cases hW : (containsSeq "west".data (collapseChars l)
        && containsSeq "60th".data (collapseChars l)) = true
    · rw [if_pos hW]; right; left; rfl
    · rw [if_neg hW]; right; right
      exact ⟨rfl, by simpa using hE, by simpa using hW⟩

theorem normalizeRegionChars_idem (l : List Char) :
    normalizeRegionChars (normalizeRegionChars l) = normalizeRegionChars l := by
  rcases normalizeRegionChars_cases l with h | h | ⟨h, hE, hW⟩
  · rw [h]; decide
  · rw [h]; decide
  · rw [h]
    simp only [normalizeRegionChars]
    rw [collapseChars_idem]
    simp [hE, hW]

/-- C9: the region normalization of the toll-zone formatter (lowercase, trim,
collapse internal whitespace, then force the east/west 60th-street keys) is
idempotent: normalize (normalize x) = normalize x. -/
theorem normalizeRegion_idem (s : String) :
    normalizeRegion (normalizeRegion s) = normalizeRegion s :=
  congrArg String.mk (normalizeRegionChars_idem s.data)

/-! ## C5: aggregator total equals sum of enabled classes -/

theorem collectParts_sum (frames : List (String × TollFrame)) :
    ∀ (toggles : List (String × Bool)) (parts : List (List ((Val × Val) × ℚ))),
      collectParts frames toggles = Except.ok parts →
      (parts.map (fun p => (p.map Prod.snd).sum)).sum
        = (toggles.map (fun t =>
            if t.2 then
              match lookupD frames t.1 with
              | some df => classSum df
              | none => 0
            else 0)).sum := by
  intro toggles
  induction toggles with
  | nil =>
      intro parts h
      simp only [collectParts, Except.ok.injEq] at h
      subst h
      simp
  | cons t rest ih =>
      intro parts h
      obtain ⟨key, isOn⟩ := t
      cases isOn with
      | true =>
          simp only [collectParts, if_true] at h
          cases hlk : lookupD frames key with
          | none => rw [hlk] at h; simp at h
          | some df =>
              rw [hlk] at h
              cases hc : collectParts frames rest with
              | error e => rw [hc] at h; simp at h
              | ok tail =>
                  rw [hc] at h
                  simp only [Except.ok.injEq] at h
                  subst h
                  have hsum : ((groupSum (coerceRows df)).map Prod.snd).sum = classSum df := by
                    rw [sum_groupSum]
                    simp [coerceRows, classSum, Function.comp_def]
                  simp [hsum, ih tail hc, hlk]
      | false =>
          simp only [collectParts, Bool.false_eq_true, if_false] at h
          simp [ih parts h]

/-- C5: for every toggle map and every set of per-class input tables, when
`aggregate_by_time_and_region` succeeds, the sum over all
`(time_block, region)` pairs of `Total Predicted CRZ Entries` equals the sum
over all enabled classes of their numeric-coerced `Predicted CRZ Entries`
values (NaN ↦ 0). -/
theorem aggregate_total_eq_enabled_sum (frames : List (String × TollFrame))
    (toggles : List (String × Bool)) (out : TollFrame)
    (h : aggregate_by_time_and_region frames toggles = Except.ok out) :
    classSum out
      = (toggles.map (fun t =>
          if t.2 then
            match lookupD frames t.1 with
            | some df => classSum df
            | none => 0
          else 0)).sum := by
  unfold aggregate_by_time_and_region at h
  cases hc : collectParts frames toggles with
  | error e => rw [hc] at h; simp at h
  | ok parts =>
      rw [hc] at h
      rw [← collectParts_sum frames toggles parts hc]
      cases parts with
      | nil =>
          simp only [Except.ok.injEq] at h
          subst h
          simp [classSum]
      | cons p ps =>
          simp only [Except.ok.injEq] at h
          subst h
          simp only [classSum, List.map_map]
          have heq : ((groupSum ((p :: ps).flatten)).map
              ((fun r => toNum r.entries) ∘ (fun q : (Val × Val) × ℚ => TollRow.mk q.1.1 q.1.2 (Val.num q.2)))).sum
              = ((groupSum ((p :: ps).flatten)).map Prod.snd).sum := by
            congr 1
          rw [heq, sum_groupSum]
          rw [show ((p :: ps).flatten.map Prod.snd) = ((p :: ps).map (List.map Prod.snd)).flatten from (List.map_flatten Prod.snd (p :: ps)).symm ▸ rfl]
          rw [List.sum_flatten]
          simp [Function.comp_def]

/-- Witness for C5 at a concrete toggle map (`cars` enabled) and a concrete
two-row cars table: the aggregated total 12 equals 5 + 7. -/
theorem aggregate_total_eq_enabled_sum_witness :
    classSum ⟨"Total Predicted CRZ Entries", [⟨Val.num 1, Val.str "brooklyn", Val.num 12⟩]⟩
      = (([("cars", true)] : List (String × Bool)).map (fun t =>
          if t.2 then
            match lookupD [("cars", (⟨"Predicted CRZ Entries",
                [⟨Val.num 1, Val.str "brooklyn", Val.num 5⟩,
                 ⟨Val.num 1, Val.str "brooklyn", Val.num 7⟩]⟩ : TollFrame))] t.1 with
            | some df => classSum df
            | none => 0
          else 0)).sum :=
  aggregate_total_eq_enabled_sum _ _ _ (by
    simp [aggregate_by_time_and_region, collectParts, groupSum, coerceRows, bump,
      toNum, lookupD]
    norm_num)

/-! ## C8: formatting the aggregated frame -/

/-- C8 (code bug): `aggregate_by_time_and_region` renames the entries column
to "Total Predicted CRZ Entries", but `format_toggle_data` reads
`row["Predicted CRZ Entries"]` (its own docstring says it takes a
"Total Predicted CRZ Entries" frame).  Formatting the aggregator's output
therefore raises `KeyError` instead of yielding one record per row. -/
theorem format_after_aggregate_raises_keyerror :
    aggregate_by_time_and_region
        [("cars", ⟨"Predicted CRZ Entries", [⟨Val.num 1, Val.str "brooklyn", Val.num 5⟩]⟩)]
        [("cars", true)]
      = Except.ok ⟨"Total Predicted CRZ Entries", [⟨Val.num 1, Val.str "brooklyn", Val.num 5⟩]⟩
    ∧ format_toggle_data ⟨"Total Predicted CRZ Entries", [⟨Val.num 1, Val.str "brooklyn", Val.num 5⟩]⟩
      = Except.error "KeyError: Predicted CRZ Entries" := by
  constructor
  · simp [aggregate_by_time_and_region, collectParts, groupSum, coerceRows, bump,
      toNum, lookupD]
  · simp [format_toggle_data, formatRows]

/-! ## C3: taxi alignment -/

/-- C3 (code bug): for taxi rows `(1, 5, loc 10)` and `(2, 7, loc 20)` and
time grid `[1, 2]`, the output row index equals the grid, but the cells for
the pairs `(1, 20)` and `(2, 10)` — intervals that have rows only for the
other location — are NaN (`none`), not 0: `pivot` leaves NaN there and
`reindex(..., fill_value=0)` only fills rows it newly adds, contradicting
the docstring "If a taxi count is missing for a time interval, it defaults
to 0". -/
theorem taxi_alignment_partial_interval_nan :
    aggregate_taxi_by_time_and_location
        [⟨1, Val.num 5, 10⟩, ⟨2, Val.num 7, 20⟩] [1, 2]
      = Except.ok ⟨[1, 2], [10, 20], [[some 5, none], [none, some 7]]⟩
    ∧ (none : Option ℚ) ≠ some 0 := by
  constructor
  · simp [aggregate_taxi_by_time_and_location, groupSum, bump, toNum, uniqueList,
      dedupKeep, sortAsc, insertAsc, List.max?, lookupD, Prod.ext_iff]
  · simp

/-! ## C2: ingestor pagination -/

theorem fetch_requests_window_partition (oracle : Req → Nat → Option (List Nat))
    (limit endDate : Nat) :
    ∀ (fuel current : Nat),
      (fetchLoop oracle limit endDate fuel current).1
        = (windowsFrom endDate fuel current).flatMap
            (fun w => List.replicate (attemptCount oracle limit w) ⟨w.1, w.2, limit⟩) := by
  intro fuel
  induction fuel with
  | zero => intro current; rfl
  | succ n ih =>
      intro current
      simp only [fetchLoop, windowsFrom]
      by_cases h : current ≤ endDate
      · rw [if_pos h, if_pos h]
        simp only [List.flatMap_cons]
        rw [ih]
        rfl
      · rw [if_neg h, if_neg h]
        rfl

/-- C2 amended: the ingestor never paginates within a window.  Its request
log is exactly the 7-day window partition of `[start, end]`, each window
repeated only for its (up to 3) retry attempts, for every response oracle —
so the requests are independent of response row counts, and the cursor
advances only between windows (to `batch_end + 1 s`); rows beyond the limit
in a window are silently dropped. -/
theorem fetch_requests_eq_partition (oracle : Req → Nat → Option (List Nat))
    (startDate endDate limit : Nat) :
    (fetch_historical_data oracle startDate endDate limit).1
      = (windowsFrom endDate (endDate + 2 - startDate) startDate).flatMap
          (fun w => List.replicate (attemptCount oracle limit w) ⟨w.1, w.2, limit⟩) :=
  fetch_requests_window_partition oracle limit endDate (endDate + 2 - startDate) startDate

/-- C2 counterexample: with the first window answered by exactly `limit` = 2
rows (timestamps 100 and 200), the claim requires a follow-up request for the
same window starting at 201 (last seen timestamp + 1 s); the code instead
issues exactly one request per window, the second starting at
`batch_end + 1 = 604801`. -/
theorem fetch_no_within_window_pagination :
    (fetch_historical_data c2Oracle 0 700000 2).1
      = [⟨0, 604800, 2⟩, ⟨604801, 700000, 2⟩]
    ∧ c2Oracle ⟨0, 604800, 2⟩ 0 = some [100, 200]
    ∧ (⟨201, 604800, 2⟩ : Req) ∉ (fetch_historical_data c2Oracle 0 700000 2).1 := by
  refine ⟨?_, by decide, ?_⟩ <;> decide

/-! ## C4: schema drift handling -/

/-- C4 amended: a raw table missing one of the required columns does not fail
the fetch with an exception; `process_raw_data` catches the `KeyError`, logs,
and returns an empty result. -/
theorem process_missing_column_returns_empty (df : RawFrame) (registry : List String)
    (dt : Val → DtParts) (h : ¬ ∀ c ∈ requiredCols, c ∈ df.cols) :
    process_raw_data df registry dt = Except.ok [] := by
  unfold process_raw_data
  by_cases h0 : df.rows.length = 0
  · rw [if_pos h0]
  · rw [if_neg h0, if_neg h]

/-- Witness for the amended C4 at a concrete one-row table that lacks the
`ridership` column. -/
theorem process_missing_column_returns_empty_witness :
    process_raw_data
        ⟨["station_complex", "transfers", "transit_timestamp"],
         [[("ridership", Val.num 3)]]⟩
        ["A"] (fun _ => ⟨0, "Monday", 0, 0⟩)
      = Except.ok [] :=
  process_missing_column_returns_empty _ _ _ (by decide)

/-- C4 counterexample: on a non-empty raw table missing the required
`ridership` column, `process_raw_data` returns an empty Ok result — it does
not raise a `SchemaError` (no such error exists anywhere in the source). -/
theorem process_missing_column_no_error :
    process_raw_data
        ⟨["station_complex", "transfers", "transit_timestamp"],
         [[("station_complex", Val.str "A")]]⟩
        ["A"] (fun _ => ⟨0, "Monday", 0, 0⟩)
      = Except.ok []
    ∧ "ridership" ∈ requiredCols
    ∧ "ridership" ∉ (["station_complex", "transfers", "transit_timestamp"] : List String) := by
  refine ⟨?_, by decide, by decide⟩
  unfold process_raw_data
  rw [if_neg (by decide), if_neg (by decide)]

/-! ## C1: specific-cell hits and the time-of-day overlay -/

/-- The concrete model artifact used for the C1 theorems: station `S` with a
`by_day_and_time` cell of 200 at (Monday, bin 51). -/
def c1Model : Models :=
  ⟨[("S", ⟨100, none⟩)],
   [("S", [("Monday", 1)])],
   [("S", [(51, 1)])],
   [("S", [("Monday", [(51, 200)])])]⟩

/-- C1 counterexample: with the cell `by_day_and_time[S][Monday][51] = 200`
and hour 8, the pre-jitter prediction is 300 = 200 × 1.5, not the stored
200 — the morning-rush overlay is applied to the specific-cell hit too. -/
theorem overlay_applied_to_specific_cell :
    specificPrediction c1Model "S" "Monday" false 51 = some 200
    ∧ preJitterPrediction c1Model "S" ⟨100, none⟩ 8 51 "Monday" false = 300
    ∧ (300 : ℚ) ≠ 200 := by
  refine ⟨?_, ?_, by norm_num⟩
  · norm_num [specificPrediction, c1Model, lookupD]
  · norm_num [preJitterPrediction, specificPrediction, applyOverlay, c1Model, lookupD]

/-- C1 amended: for every station s, non-aggregate day d and bin b with a
`by_day_and_time[s][d][b]` cell, the prediction before the jitter, floor and
rounding steps equals that stored value with the deterministic time-of-day
overlay applied — the overlay multipliers (0.5·(hour+1)/5, 1.5, 1.4, 0.7)
act on both the specific-cell and the factor-product branches, so the
pre-jitter value equals the stored cell exactly only when the hour falls in
no overlay window. -/
theorem specific_cell_prediction_overlay (models : Models) (station : String)
    (sd : StationModel) (byDay : List (String × List (Int × ℚ)))
    (dayTime : List (Int × ℚ)) (v : ℚ) (hour timeBin : Int) (dayOfWeek : String)
    (h1 : lookupD models.by_day_and_time station = some byDay)
    (h2 : lookupD byDay dayOfWeek = some dayTime)
    (h3 : lookupD dayTime timeBin = some v) :
    preJitterPrediction models station sd hour timeBin dayOfWeek false
      = applyOverlay hour v := by
  simp [preJitterPrediction, specificPrediction, h1, h2, h3]

/-- Witness for the amended C1 at the concrete model and hour 8. -/
theorem specific_cell_prediction_overlay_witness :
    preJitterPrediction c1Model "S" ⟨100, none⟩ 8 51 "Monday" false
      = applyOverlay 8 200 :=
  specific_cell_prediction_overlay c1Model "S" ⟨100, none⟩
    [("Monday", [(51, 200)])] [(51, 200)] 200 8 51 "Monday"
    (by norm_num [c1Model, lookupD]) (by norm_num [lookupD]) (by norm_num [lookupD])

/-! ## C6: output membership and the floor -/

/-- C6: for every query and every loaded model — including the missing-model
degraded mode and the per-station exception fallback — every station in the
predictor's output is a member of the Station Registry and its prediction is
at least 10, given the ranges of the random draws
(`randint(100, 1000)` and `randint(200, 800)`). -/
theorem ridership_output_stations_and_floor
    (registry : List String) (time_str day_str : Option String)
    (now : Int × Int) (nowDay : String) (nowHour : Int) (loaded : Option Models)
    (jitterOf : String → ℚ) (randOf : String → ℤ) (excOf : String → Bool)
    (fallbackBase : String → ℤ)
    (hrand : ∀ s, 100 ≤ randOf s ∧ randOf s < 1000)
    (hbase : ∀ s, 200 ≤ fallbackBase s ∧ fallbackBase s < 800) :
    ∀ p ∈ ridership registry time_str day_str now nowDay nowHour loaded
        jitterOf randOf excOf fallbackBase,
      p.1 ∈ registry ∧ (10 : ℚ) ≤ p.2 := by
  intro p hp
  cases loaded with
  | none =>
      simp only [ridership, generate_fallback_predictions] at hp
      obtain ⟨s, hs, rfl⟩ := List.mem_map.mp hp
      refine ⟨hs, ?_⟩
      have hb : (200 : ℚ) ≤ (fallbackBase s : ℤ) := by exact_mod_cast (hbase s).1
      have hmult : (2 / 5 : ℚ) ≤
          (if 7 ≤ nowHour ∧ nowHour ≤ 9 then (5 / 2 : ℚ)
           else if 16 ≤ nowHour ∧ nowHour ≤ 19 then 23 / 10
           else if 22 ≤ nowHour ∨ nowHour ≤ 5 then 2 / 5
           else 1) := by
        split_ifs <;> norm_num
      have h10 : (10 : ℚ) ≤ (fallbackBase s : ℤ) *
          (if 7 ≤ nowHour ∧ nowHour ≤ 9 then (5 / 2 : ℚ)
           else if 16 ≤ nowHour ∧ nowHour ≤ 19 then 23 / 10
           else if 22 ≤ nowHour ∨ nowHour ≤ 5 then 2 / 5
           else 1) := by nlinarith
      have hr := round2_ge 10 _ h10
      exact_mod_cast hr
  | some models =>
      simp only [ridership] at hp
      obtain ⟨s, hs, rfl⟩ := List.mem_map.mp hp
      by_cases he : excOf s
      · simp only [he, if_true]
        refine ⟨hs, ?_⟩
        have h100 : (100 : ℚ) ≤ ((randOf s : ℤ) : ℚ) := by exact_mod_cast (hrand s).1
        linarith
      · simp only [he, Bool.false_eq_true, if_false]
        cases hl : lookupD models.by_station s with
        | none =>
            simp only
            refine ⟨hs, ?_⟩
            have h100 : (100 : ℚ) ≤ ((randOf s : ℤ) : ℚ) := by exact_mod_cast (hrand s).1
            linarith
        | some sd =>
            simp only
            refine ⟨hs, ?_⟩
            unfold predictStation
            have hmax : (10 : ℚ) ≤ max 10 (preJitterPrediction models s sd
                (resolveTime time_str now).1
                (Int.fdiv ((resolveTime time_str now).1 * 60 + (resolveTime time_str now).2) 10)
                (resolveDay day_str nowDay) (isAggregate (resolveDay day_str nowDay))
                * jitterOf s) := le_max_left 10 _
            have hr := round2_ge 10 _ hmax
            exact_mod_cast hr

/-- Witness for C6 in degraded mode: registry `["S"]`, hour 12, fallback base
200 gives the output entry `("S", 200)`. -/
theorem ridership_output_stations_and_floor_witness :
    ("S", (200 : ℚ)).1 ∈ ["S"] ∧ (10 : ℚ) ≤ ("S", (200 : ℚ)).2 :=
  ridership_output_stations_and_floor ["S"] none none (0, 0) "monday" 12 none
    (fun _ => 1) (fun _ => 100) (fun _ => false) (fun _ => 200)
    (fun _ => ⟨by norm_num, by norm_num⟩) (fun _ => ⟨by norm_num, by norm_num⟩)
    ("S", 200) (by norm_num [ridership, generate_fallback_predictions, round2, round_ofNat])

/-! ## C10: out-of-range clock times -/

theorem lookupD_mem {κ ν : Type} [DecidableEq κ] :
    ∀ (l : List (κ × ν)) (k : κ) (v : ν), lookupD l k = some v → (k, v) ∈ l := by
  intro l
  induction l with
  | nil => intro k v h; simp [lookupD] at h
  | cons p rest ih =>
      intro k v h
      obtain ⟨k', v'⟩ := p
      simp only [lookupD] at h
      by_cases hk : k' = k
      · rw [if_pos hk] at h
        simp only [Option.some.injEq] at h
        subst hk
        subst h
        exact List.mem_cons_self _ _
      · rw [if_neg hk] at h
        exact List.mem_cons_of_mem _ (ih k v h)

theorem lookupD_eq_none_of {κ ν : Type} [DecidableEq κ] :
    ∀ (l : List (κ × ν)) (k : κ), (∀ p ∈ l, p.1 ≠ k) → lookupD l k = none := by
  intro l
  induction l with
  | nil => intro k _; rfl
  | cons p rest ih =>
      intro k h
      obtain ⟨k', v'⟩ := p
      simp only [lookupD]
      rw [if_neg (h (k', v') (List.mem_cons_self _ _))]
      exact ih k (fun q hq => h q (List.mem_cons_of_mem _ hq))

/-- C10 counterexample: `time_str = "8:999"` parses as (8, 999), gives
`time_bin = 147 > 143`, yet the morning-rush overlay branch still applies
(it depends only on the hour): the claim says no overlay branch applies
whenever the bin exceeds 143. -/
theorem invalid_time_overlay_still_applies :
    parseTime "8:999" = some (8, 999)
    ∧ Int.fdiv (8 * 60 + 999) 10 = 147
    ∧ (143 : Int) < 147
    ∧ applyOverlay 8 100 = 150
    ∧ (150 : ℚ) ≠ 100 := by
  refine ⟨by decide, by decide, by decide, ?_, by norm_num⟩
  norm_num [applyOverlay]

/-- C10 amended: for an invalid clock time whose parts parse as integers, the
predictor keeps the parsed pair (no wall-clock fallback and no error); when
the resulting bin exceeds 143 and the artifact's bins are in range, no
`time_patterns` entry and no `by_day_and_time` cell applies, and a
prediction is still emitted for every registered station; the time-of-day
overlay depends only on the hour, so it is guaranteed inert only when the
hour also lies outside every overlay window (as with "27:45"), not for every
out-of-range bin (for example "8:999"). -/
theorem out_of_range_bin_behavior
    (registry : List String) (models : Models) (time_s : String) (h m : Int)
    (day_str : Option String) (now : Int × Int) (nowDay : String) (nowHour : Int)
    (jitterOf : String → ℚ) (randOf : String → ℤ) (excOf : String → Bool)
    (fallbackBase : String → ℤ)
    (hparse : parseTime time_s = some (h, m))
    (hbound : binsBounded models)
    (hbin : 143 < Int.fdiv (h * 60 + m) 10) :
    resolveTime (some time_s) now = (h, m)
    ∧ (∀ st, timeFactor models st (Int.fdiv (h * 60 + m) 10) = 1)
    ∧ (∀ st day isAgg, specificPrediction models st day isAgg (Int.fdiv (h * 60 + m) 10) = none)
    ∧ ((h < 0 ∨ 24 ≤ h) → ∀ p, applyOverlay h p = p)
    ∧ (ridership registry (some time_s) day_str now nowDay nowHour (some models)
        jitterOf randOf excOf fallbackBase).map Prod.fst = registry := by
  refine ⟨?_, ?_, ?_, ?_, ?_⟩
  · simp [resolveTime, hparse]
  · intro st
    unfold timeFactor
    cases hl : lookupD models.time_patterns st with
    | none => rfl
    | some tp =>
        have hmem := lookupD_mem _ _ _ hl
        have hnone : lookupD tp (Int.fdiv (h * 60 + m) 10) = none := by
          refine lookupD_eq_none_of _ _ ?_
          intro q hq hcontra
          have := hbound.1 (st, tp) hmem q hq
          omega
        simp [hnone]
  · intro st day isAgg
    unfold specificPrediction
    cases hl : lookupD models.by_day_and_time st with
    | none => rfl
    | some byDay =>
        cases isAgg with
        | true => simp
        | false =>
            simp only [Bool.false_eq_true, if_false]
            cases hd : lookupD byDay day with
            | none => rfl
            | some dayTime =>
                have hmem := lookupD_mem _ _ _ hl
                have hdmem := lookupD_mem _ _ _ hd
                refine lookupD_eq_none_of _ _ ?_
                intro q hq hcontra
                have := hbound.2 (st, byDay) hmem (day, dayTime) hdmem q hq
                omega
  · intro hh p
    unfold applyOverlay
    rw [if_neg (by omega), if_neg (by omega), if_neg (by omega), if_neg (by omega)]
  · simp only [ridership]
    rw [List.map_map]
    have hfix : ∀ st ∈ registry, (Prod.fst ∘ fun station =>
        if excOf station then (station, ((randOf station : ℤ) : ℚ))
        else
          match lookupD models.by_station station with
          | none => (station, ((randOf station : ℤ) : ℚ))
          | some sd =>
              (station, predictStation models station sd
                (resolveTime (some time_s) now).1
                (Int.fdiv ((resolveTime (some time_s) now).1 * 60
                  + (resolveTime (some time_s) now).2) 10)
                (resolveDay day_str nowDay) (isAggregate (resolveDay day_str nowDay))
                (jitterOf station))) st = st := by
      intro st _
      by_cases he : excOf st
      · simp [he]
      · simp only [Function.comp_apply, he, Bool.false_eq_true, if_false]
        cases lookupD models.by_station st <;> rfl
    exact (List.map_congr_left hfix).trans (List.map_id' registry)

/-- The concrete artifact for the C10 witness: all bins in range. -/
def c10Model : Models :=
  ⟨[("S", ⟨500, none⟩)], [("S", [("Monday", 1)])],
   [("S", [(51, 1)])], [("S", [("Monday", [(51, 200)])])]⟩

/-- Witness for the amended C10 at `"27:45"` (bin 166, hour 27 outside every
overlay window). -/
theorem out_of_range_bin_behavior_witness :
    resolveTime (some "27:45") (0, 0) = (27, 45)
    ∧ timeFactor c10Model "S" (Int.fdiv (27 * 60 + 45) 10) = 1
    ∧ specificPrediction c10Model "S" "Monday" false (Int.fdiv (27 * 60 + 45) 10) = none
    ∧ applyOverlay 27 55 = 55
    ∧ (ridership ["S"] (some "27:45") (some "monday") (0, 0) "monday" 12 (some c10Model)
        (fun _ => 1) (fun _ => 100) (fun _ => false) (fun _ => 200)).map Prod.fst = ["S"] :=
  have base := out_of_range_bin_behavior ["S"] c10Model "27:45" 27 45 (some "monday")
      (0, 0) "monday" 12 (fun _ => 1) (fun _ => 100) (fun _ => false) (fun _ => 200)
      (by decide) (by unfold binsBounded; exact ⟨by decide, by decide⟩) (by decide)
  ⟨base.1, base.2.1 "S", base.2.2.1 "S" "Monday" false,
   base.2.2.2.1 (Or.inr (by decide)) 55, base.2.2.2.2⟩

/-! ## C7: builder section invariants -/

theorem lookupD_filterMap_none {β : Type} (F : String → Option (String × β))
    (hkey : ∀ a p, F a = some p → p.1 = a) (s : String) (hs : F s = none) :
    ∀ (l : List String), lookupD (l.filterMap F) s = none := by
  intro l
  induction l with
  | nil => rfl
  | cons a l ih =>
      rw [List.filterMap_cons]
      cases hFa : F a with
      | none => exact ih
      | some p =>
          simp only [lookupD]
          rw [if_neg ?_]
          · exact ih
          · intro hcontra
            have hpa := hkey a p hFa
            rw [hpa] at hcontra
            subst hcontra
            rw [hs] at hFa
            exact Option.noConfusion hFa

theorem lookupD_filterMap_some {β : Type} (F : String → Option (String × β))
    (hkey : ∀ a p, F a = some p → p.1 = a) (s : String) (v : β) :
    ∀ (l : List String), lookupD (l.filterMap F) s = some v →
      F s = some (s, v) ∧ s ∈ l := by
  intro l
  induction l with
  | nil => intro h; simp [lookupD] at h
  | cons a l ih =>
      intro h
      rw [List.filterMap_cons] at h
      cases hFa : F a with
      | none =>
          rw [hFa] at h
          obtain ⟨h1, h2⟩ := ih h
          exact ⟨h1, List.mem_cons_of_mem a h2⟩
      | some p =>
          rw [hFa] at h
          simp only [lookupD] at h
          by_cases hps : p.1 = s
          · rw [if_pos hps] at h
            simp only [Option.some.injEq] at h
            have hpa := hkey a p hFa
            rw [hpa] at hps
            subst hps
            refine ⟨?_, List.mem_cons_self _ _⟩
            rw [hFa]
            exact congrArg some (Prod.ext hpa h)
          · rw [if_neg hps] at h
            obtain ⟨h1, h2⟩ := ih h
            exact ⟨h1, List.mem_cons_of_mem a h2⟩

theorem byStationEntry_key (data : List ProcRow) (arFit : List ℚ → Option (List ℚ)) :
    ∀ a p, byStationEntry data arFit a = some p → p.1 = a := by
  intro a p h
  unfold byStationEntry at h
  by_cases hg : 24 ≤ (stationRows data a).length
  · simp only [hg, if_true, Option.some.injEq] at h
    rw [← h]
  · simp [hg] at h

theorem dayFactorsEntry_key (data : List ProcRow) :
    ∀ a p, dayFactorsEntry data a = some p → p.1 = a := by
  intro a p h
  unfold dayFactorsEntry at h
  by_cases hg : 24 ≤ (stationRows data a).length
  · simp only [hg, if_true, Option.some.injEq] at h
    rw [← h]
  · simp [hg] at h

theorem timePatternsEntry_key (data : List ProcRow) :
    ∀ a p, timePatternsEntry data a = some p → p.1 = a := by
  intro a p h
  unfold timePatternsEntry at h
  by_cases hg : 24 ≤ (stationRows data a).length
  · simp only [hg, if_true, Option.some.injEq] at h
    rw [← h]
  · simp [hg] at h

theorem dayTimeEntry_key (data : List ProcRow) :
    ∀ a p, dayTimeEntry data a = some p → p.1 = a := by
  intro a p h
  unfold dayTimeEntry at h
  by_cases hg : 24 ≤ (stationRows data a).length
  · simp only [hg, if_true] at h
    by_cases hd : mkDayTime (stationRows data a) = []
    · simp [hd] at h
    · simp only [hd, if_false, Option.some.injEq] at h
      rw [← h]
  · simp [hg] at h

theorem lookupD_filterMap_mem {β : Type} (F : String → Option (String × β))
    (hkey : ∀ a p, F a = some p → p.1 = a) (s : String) (p : String × β)
    (hF : F s = some p) :
    ∀ (l : List String), s ∈ l → lookupD (l.filterMap F) s = some p.2 := by
  intro l
  induction l with
  | nil => intro h; simp at h
  | cons a l ih =>
      intro hmem
      rw [List.filterMap_cons]
      cases hFa : F a with
      | none =>
          have has : a ≠ s := by
            intro he
            subst he
            rw [hF] at hFa
            exact Option.noConfusion hFa
          rcases List.mem_cons.mp hmem with he | hm
          · exact absurd he.symm has
          · exact ih hm
      | some q =>
          simp only [lookupD]
          by_cases hqs : q.1 = s
          · rw [if_pos hqs]
            have hqa := hkey a q hFa
            rw [hqa] at hqs
            subst hqs
            rw [hF] at hFa
            injection hFa with he
            rw [he]
          · rw [if_neg hqs]
            rcases List.mem_cons.mp hmem with he | hm
            · exfalso
              apply hqs
              rw [hkey a q hFa]
              exact he.symm
            · exact ih hm

/-- C7: a station with fewer than 24 observations is omitted from every
section of the artifact, and every station appearing as a key of
`day_of_week_factors`, `time_patterns` or `by_day_and_time`, or carrying
`ar_params`, also appears as a key of `by_station`. -/
theorem builder_sections_conform (data : List ProcRow)
    (arFit : List ℚ → Option (List ℚ)) (s : String) :
    ((stationRows data s).length < 24 →
        lookupD (build_time_of_day_models data arFit).by_station s = none
        ∧ lookupD (build_time_of_day_models data arFit).day_of_week_factors s = none
        ∧ lookupD (build_time_of_day_models data arFit).time_patterns s = none
        ∧ lookupD (build_time_of_day_models data arFit).by_day_and_time s = none)
    ∧ ((lookupD (build_time_of_day_models data arFit).day_of_week_factors s ≠ none
        ∨ lookupD (build_time_of_day_models data arFit).time_patterns s ≠ none
        ∨ lookupD (build_time_of_day_models data arFit).by_day_and_time s ≠ none
        ∨ (∃ sd, lookupD (build_time_of_day_models data arFit).by_station s = some sd
            ∧ sd.ar_params ≠ none))
        → lookupD (build_time_of_day_models data arFit).by_station s ≠ none) := by
  simp only [build_time_of_day_models]
  constructor
  · intro hlt
    have hgate : ¬ 24 ≤ (stationRows data s).length := by omega
    refine ⟨?_, ?_, ?_, ?_⟩
    · exact lookupD_filterMap_none _ (byStationEntry_key data arFit) s
        (by unfold byStationEntry; rw [if_neg hgate]) _
    · exact lookupD_filterMap_none _ (dayFactorsEntry_key data) s
        (by unfold dayFactorsEntry; rw [if_neg hgate]) _
    · exact lookupD_filterMap_none _ (timePatternsEntry_key data) s
        (by unfold timePatternsEntry; rw [if_neg hgate]) _
    · exact lookupD_filterMap_none _ (dayTimeEntry_key data) s
        (by unfold dayTimeEntry; rw [if_neg hgate]) _
  · intro hdisj
    have hgate_mem : 24 ≤ (stationRows data s).length
        ∧ s ∈ uniqueList (data.map (fun r => r.station_complex)) := by
      rcases hdisj with h | h | h | ⟨sd, hsd, _⟩
      · cases hv : lookupD ((uniqueList (data.map (fun r => r.station_complex))).filterMap
            (dayFactorsEntry data)) s with
        | none => exact absurd hv h
        | some v =>
            obtain ⟨h1, h2⟩ := lookupD_filterMap_some _ (dayFactorsEntry_key data) s v _ hv
            refine ⟨?_, h2⟩
            unfold dayFactorsEntry at h1
            by_cases hg : 24 ≤ (stationRows data s).length
            · exact hg
            · simp [hg] at h1
      · cases hv : lookupD ((uniqueList (data.map (fun r => r.station_complex))).filterMap
            (timePatternsEntry data)) s with
        | none => exact absurd hv h
        | some v =>
            obtain ⟨h1, h2⟩ := lookupD_filterMap_some _ (timePatternsEntry_key data) s v _ hv
            refine ⟨?_, h2⟩
            unfold timePatternsEntry at h1
            by_cases hg : 24 ≤ (stationRows data s).length
            · exact hg
            · simp [hg] at h1
      · cases hv : lookupD ((uniqueList (data.map (fun r => r.station_complex))).filterMap
            (dayTimeEntry data)) s with
        | none => exact absurd hv h
        | some v =>
            obtain ⟨h1, h2⟩ := lookupD_filterMap_some _ (dayTimeEntry_key data) s v _ hv
            refine ⟨?_, h2⟩
            unfold dayTimeEntry at h1
            by_cases hg : 24 ≤ (stationRows data s).length
            · exact hg
            · simp [hg] at h1
      · obtain ⟨h1, h2⟩ := lookupD_filterMap_some _ (byStationEntry_key data arFit) s sd _ hsd
        refine ⟨?_, h2⟩
        unfold byStationEntry at h1
        by_cases hg : 24 ≤ (stationRows data s).length
        · exact hg
        · simp [hg] at h1
    obtain ⟨hgate, hmem⟩ := hgate_mem
    intro hnone
    have hF : byStationEntry data arFit s
        = some (s, ⟨listMean ((stationRows data s).map (fun r => r.ridership)),
                    if 30 ≤ (stationRows data s).length then
                      arFit ((sortByTs (stationRows data s)).map (fun r => r.ridership))
                    else none⟩) := by
      unfold byStationEntry
      rw [if_pos hgate]
    have hlk := lookupD_filterMap_mem _ (byStationEntry_key data arFit) s _ hF _ hmem
    rw [hlk] at hnone
    exact Option.noConfusion hnone

/-- A single-row observation set: station `A` has 1 < 24 observations. -/
def c7Data : List ProcRow := [⟨0, "A", 5, 0, "Monday", 8, 30, 51⟩]

/-- Witness for C7 at the single-row observation set. -/
theorem builder_sections_conform_witness :
    lookupD (build_time_of_day_models c7Data (fun _ => none)).by_station "A" = none
    ∧ lookupD (build_time_of_day_models c7Data (fun _ => none)).day_of_week_factors "A" = none
    ∧ lookupD (build_time_of_day_models c7Data (fun _ => none)).time_patterns "A" = none
    ∧ lookupD (build_time_of_day_models c7Data (fun _ => none)).by_day_and_time "A" = none :=
  (builder_sections_conform c7Data (fun _ => none) "A").1 (by decide)
